import Mathlib

/-!
Verification of the Peer-Tutoring repository's core scheduling logic.

Shallow embedding conventions:
* Times are natural numbers of minutes.  A calendar date is its day index
  (a `Nat`); a datetime is `date * 1440 + minutesIntoDay`; `dt % 1440` is
  Python's `datetime.time()` and `dt / 1440` its `.date()`;
  `date % 7` is Python's `date.weekday()` (day 0 is a Monday).
* The booking-window policy additionally needs second granularity, so there
  the time of day is a number of seconds in `[0, 86400)`; 22:00 is `79200`.
* ORM relationships (`tutor.bookings`) become explicit lists: the caller
  passes the tutor's booking list (the global list filtered on `tutor_id`).
* `random.choice(xs)` is modelled by indexing with an arbitrary parameter
  `r` as `xs.get? (r % xs.length)`; any run of the program corresponds to
  some value of `r`.
* Database commits can fail; `book` therefore takes the commit outcome
  (`success`, `uniqueViolation` for the `uq_tutor_booking_start` constraint,
  or `otherError`) as an explicit parameter.
-/

/-- Weekly availability block (`WeeklyAvailability` in `app/models.py`):
a recurring window on one weekday, times in minutes into the day. -/
structure WeeklyAvailability where
  day_of_week : Nat
  start_time : Nat
  end_time : Nat
deriving DecidableEq

/-- One-off blackout (`TutorException` in `app/models.py`).  `none` bounds
mean an absent time; both absent means a full-day blackout. -/
structure TutorException where
  date : Nat
  start_time : Option Nat
  end_time : Option Nat
deriving DecidableEq

/-- Booking row (`Booking` in `app/models.py`).  `start_time`/`end_time` are
datetimes in minutes; cancellation state mirrors the three columns. -/
structure Booking where
  id : Nat
  tutor_id : Nat
  subject_id : Option Nat
  student_name : String
  student_phone : String
  start_time : Nat
  end_time : Nat
  created_at : Nat
  is_canceled : Bool
  canceled_at : Option Nat
  cancel_reason : Option String
deriving DecidableEq

/-- Tutor row (`Tutor` in `app/models.py`) with its owned collections.
Bookings are kept globally and filtered by `tutor_id` where the source
walks the `tutor.bookings` relationship. -/
structure Tutor where
  id : Nat
  is_active : Bool
  subjects : List Nat
  weekly_availability : List WeeklyAvailability
  exceptions : List TutorException
deriving DecidableEq

/-- Loop body of `WeeklyAvailability.generate_slots` (`models.py` lines
96-99): `while cursor + step <= end_dt: emit (cursor, cursor+step)`.
The source's `while` loop diverges when `step = 0` (see `slotsLoopFuel`);
the `0 < step` conjunct in the guard makes the Lean function total and
agrees with the source whenever the source terminates. -/
def slotsFrom (cursor endT step : Nat) : List (Nat × Nat) :=
  if _hgo : 0 < step ∧ cursor + step ≤ endT then
    (cursor, cursor + step) :: slotsFrom (cursor + step) endT step
  else []
termination_by endT - cursor
decreasing_by omega

/-- Fuel-indexed version of the same `while` loop, `none` meaning the fuel
ran out with the loop still running.  Used to reason about termination of
the source loop itself. -/
def slotsLoopFuel : Nat → Nat → Nat → Nat → Option (List (Nat × Nat))
  | 0, cursor, endT, step => if cursor + step ≤ endT then none else some []
  | fuel + 1, cursor, endT, step =>
    if cursor + step ≤ endT then
      (slotsLoopFuel fuel (cursor + step) endT step).map
        (fun rest => (cursor, cursor + step) :: rest)
    else some []

/-- `WeeklyAvailability.generate_slots` (`models.py` lines 91-100):
combine the block bounds with the date and run the slot loop. -/
def WeeklyAvailability.generate_slots (w : WeeklyAvailability) (date : Nat)
    (slot_minutes : Nat) : List (Nat × Nat) :=
  slotsFrom (date * 1440 + w.start_time) (date * 1440 + w.end_time) slot_minutes

/-- Closed form of the slot loop: for a positive step it enumerates
`(endT - cursor) / step` slots starting at `cursor`, stepping by `step`. -/
theorem slotsFrom_closed (cursor endT step : Nat) (hstep : 0 < step) :
    slotsFrom cursor endT step =
      (List.range ((endT - cursor) / step)).map
        (fun i => (cursor + i * step, cursor + i * step + step)) := by
  rw [slotsFrom]
  by_cases hle : cursor + step ≤ endT
  · rw [dif_pos ⟨hstep, hle⟩]
    rw [slotsFrom_closed (cursor + step) endT step hstep]
    have hsub : endT - (cursor + step) = (endT - cursor) - step := by omega
    have hdiv : (endT - cursor) / step = ((endT - cursor) - step) / step + 1 :=
      Nat.div_eq_sub_div hstep (by omega)
    rw [hsub, hdiv, List.range_succ_eq_map, List.map_cons, List.map_map]
    have hfun : ((fun i => (cursor + i * step, cursor + i * step + step)) ∘ Nat.succ)
        = (fun i => (cursor + step + i * step, cursor + step + i * step + step)) := by
      funext i
      have harith : cursor + (i + 1) * step = cursor + step + i * step := by ring
      simp [Function.comp, Nat.succ_eq_add_one, harith]
    rw [hfun]
    simp
  · rw [dif_neg (by omega)]
    have : (endT - cursor) / step = 0 := Nat.div_eq_of_lt (by omega)
    rw [this]
    simp
termination_by endT - cursor
decreasing_by omega

/-- With enough fuel, the fuel-indexed loop terminates (for a positive step)
and computes exactly what `slotsFrom` computes. -/
theorem slotsLoopFuel_terminates (fuel cursor endT step : Nat) (hstep : 0 < step)
    (hfuel : endT - cursor ≤ fuel * step) :
    slotsLoopFuel fuel cursor endT step = some (slotsFrom cursor endT step) := by
  induction fuel generalizing cursor with
  | zero =>
    have hlt : ¬ (cursor + step ≤ endT) := by omega
    rw [slotsFrom]
    rw [dif_neg (by omega)]
    simp [slotsLoopFuel, hlt]
  | succ n ih =>
    by_cases hle : cursor + step ≤ endT
    · rw [slotsFrom, dif_pos ⟨hstep, hle⟩]
      have := ih (cursor + step) (by
        have : (n + 1) * step = n * step + step := by ring
        omega)
      simp [slotsLoopFuel, hle, this]
    · rw [slotsFrom, dif_neg (by omega)]
      simp [slotsLoopFuel, hle]

/-- With a zero step and the cursor not past the end, the source's `while`
loop never terminates: no amount of fuel suffices. -/
theorem slotsLoopFuel_zero_step_diverges (fuel cursor endT : Nat)
    (h : cursor ≤ endT) :
    slotsLoopFuel fuel cursor endT 0 = none := by
  induction fuel generalizing cursor with
  | zero => simp [slotsLoopFuel, h]
  | succ n ih => simp [slotsLoopFuel, h, ih cursor h]

/-- Every slot produced by the loop ends no later than `endT`. -/
theorem slotsFrom_end_le (cursor endT step : Nat) (hstep : 0 < step) :
    ∀ p ∈ slotsFrom cursor endT step, p.2 ≤ endT := by
  intro p hp
  rw [slotsFrom_closed cursor endT step hstep] at hp
  rcases List.mem_map.mp hp with ⟨i, hi, rfl⟩
  rcases List.mem_range.mp hi with hilt
  have hmul : (i + 1) * step ≤ ((endT - cursor) / step) * step :=
    Nat.mul_le_mul_right step hilt
  have hdm : ((endT - cursor) / step) * step ≤ endT - cursor :=
    Nat.div_mul_le_self (endT - cursor) step
  simp only []
  have : i * step + step ≤ endT - cursor := by
    have : (i + 1) * step = i * step + step := by ring
    omega
  omega

/-- The slot starts are strictly increasing. -/
theorem slotsFrom_starts_increasing (cursor endT step : Nat) (hstep : 0 < step) :
    List.Pairwise (fun p q => p.1 < q.1) (slotsFrom cursor endT step) := by
  rw [slotsFrom_closed cursor endT step hstep]
  refine List.pairwise_map.mpr ?_
  have hrange : List.Pairwise (fun i j => i < j)
      (List.range ((endT - cursor) / step)) :=
    List.pairwise_lt_range ((endT - cursor) / step)
  exact hrange.imp (by
    intro i j hij
    have : i * step < j * step := (Nat.mul_lt_mul_right hstep).mpr hij
    omega)

/-- C3: for a block with `end > start` and a positive slot length,
`generate_slots` returns the slots in increasing order of start, starting at
`date + block.start` and stepping by `slot_length` (the closed form below),
emitting a slot exactly while `cursor + slot_length <= date + block.end`;
hence every slot ends by `date + block.end` (none is truncated) and a block
shorter than one slot length yields no slots.  (For `slot_length = 0` the
source loop diverges; see `generate_slots_termination`.) -/
theorem generate_slots_spec (w : WeeklyAvailability) (date slot_minutes : Nat)
    (hpos : 0 < slot_minutes) (_hblock : w.start_time < w.end_time) :
    (w.generate_slots date slot_minutes =
      (List.range ((w.end_time - w.start_time) / slot_minutes)).map
        (fun i => (date * 1440 + w.start_time + i * slot_minutes,
                   date * 1440 + w.start_time + i * slot_minutes + slot_minutes)))
    ∧ List.Pairwise (fun p q => p.1 < q.1) (w.generate_slots date slot_minutes)
    ∧ (∀ p ∈ w.generate_slots date slot_minutes, p.2 ≤ date * 1440 + w.end_time)
    ∧ (w.end_time - w.start_time < slot_minutes →
        w.generate_slots date slot_minutes = []) := by
  have hsub : date * 1440 + w.end_time - (date * 1440 + w.start_time)
      = w.end_time - w.start_time := by omega
  refine ⟨?_, ?_, ?_, ?_⟩
  · rw [WeeklyAvailability.generate_slots,
      slotsFrom_closed (date * 1440 + w.start_time) (date * 1440 + w.end_time)
        slot_minutes hpos, hsub]
  · exact slotsFrom_starts_increasing (date * 1440 + w.start_time)
      (date * 1440 + w.end_time) slot_minutes hpos
  · exact slotsFrom_end_le (date * 1440 + w.start_time)
      (date * 1440 + w.end_time) slot_minutes hpos
  · intro hshort
    rw [WeeklyAvailability.generate_slots,
      slotsFrom_closed (date * 1440 + w.start_time) (date * 1440 + w.end_time)
        slot_minutes hpos, hsub, Nat.div_eq_of_lt hshort]
    simp

/-- Witness for `generate_slots_spec` at a concrete input: a 90-minute block
cut into 30-minute slots. -/
theorem generate_slots_spec_witness :
    (WeeklyAvailability.mk 0 0 90).generate_slots 0 30 =
      (List.range ((90 - 0) / 30)).map
        (fun i => (0 * 1440 + 0 + i * 30, 0 * 1440 + 0 + i * 30 + 30)) :=
  (generate_slots_spec ⟨0, 0, 90⟩ 0 30 (by decide) (by decide)).1

/-- C10: for `slot_minutes >= 1` the source loop terminates (the fuel-indexed
loop reaches a result with `block.end - block.start` fuel) and produces
exactly `(block.end - block.start) / slot_minutes` slots; for
`slot_minutes = 0` and a non-empty block, the loop runs forever (no fuel
suffices), so positivity is a necessary precondition for termination. -/
theorem generate_slots_termination (w : WeeklyAvailability) (date slot_minutes : Nat) :
    (1 ≤ slot_minutes →
      slotsLoopFuel (w.end_time - w.start_time) (date * 1440 + w.start_time)
          (date * 1440 + w.end_time) slot_minutes
        = some (w.generate_slots date slot_minutes)
      ∧ (w.generate_slots date slot_minutes).length
          = (w.end_time - w.start_time) / slot_minutes)
    ∧ (w.start_time < w.end_time →
        ∀ fuel, slotsLoopFuel fuel (date * 1440 + w.start_time)
            (date * 1440 + w.end_time) 0 = none) := by
  have hsub : date * 1440 + w.end_time - (date * 1440 + w.start_time)
      = w.end_time - w.start_time := by omega
  constructor
  · intro hpos
    constructor
    · refine slotsLoopFuel_terminates (w.end_time - w.start_time)
        (date * 1440 + w.start_time) (date * 1440 + w.end_time) slot_minutes hpos ?_
      have hmul : (w.end_time - w.start_time) * 1
          ≤ (w.end_time - w.start_time) * slot_minutes :=
        Nat.mul_le_mul_left (w.end_time - w.start_time) hpos
      omega
    · rw [WeeklyAvailability.generate_slots,
        slotsFrom_closed (date * 1440 + w.start_time) (date * 1440 + w.end_time)
          slot_minutes hpos, hsub]
      simp
  · intro hne fuel
    exact slotsLoopFuel_zero_step_diverges fuel (date * 1440 + w.start_time)
      (date * 1440 + w.end_time) (by omega)

/-- Witness for `generate_slots_termination` at a concrete input: with a
positive step the loop stops with three slots; with step zero it never does. -/
theorem generate_slots_termination_witness :
    ((WeeklyAvailability.mk 0 0 90).generate_slots 0 30).length = (90 - 0) / 30
    ∧ slotsLoopFuel 5 (0 * 1440 + 0) (0 * 1440 + 90) 0 = none :=
  ⟨((generate_slots_termination ⟨0, 0, 90⟩ 0 30).1 (by decide)).2,
   (generate_slots_termination ⟨0, 0, 90⟩ 0 0).2 (by decide) 5⟩

/-- `TutorException.is_full_day` (`models.py` lines 116-117). -/
def TutorException.is_full_day (e : TutorException) : Bool :=
  e.start_time.isNone && e.end_time.isNone

/-- `TutorException.overlaps` (`models.py` lines 119-128): no overlap when the
exception's date differs from `start_dt`'s date; a full-day (or half-absent)
exception overlaps unconditionally; otherwise the half-open interval test
against the exception bounds combined with its date. -/
def TutorException.overlaps (e : TutorException) (start_dt end_dt : Nat) : Bool :=
  if e.date ≠ start_dt / 1440 then false
  else if e.is_full_day then true
  else if e.start_time.isNone || e.end_time.isNone then true
  else decide (start_dt < e.date * 1440 + e.end_time.getD 0)
    && decide (end_dt > e.date * 1440 + e.start_time.getD 0)

/-- `Tutor.availability_for_day` (`models.py` lines 49-50). -/
def Tutor.availability_for_day (t : Tutor) (weekday : Nat) : List WeeklyAvailability :=
  t.weekly_availability.filter (fun avail => decide (avail.day_of_week = weekday))

/-- `Tutor.is_available_for_slot` (`models.py` lines 52-68): the three
early-return gates of the source, in source order (exceptions, then weekly
blocks, then non-canceled bookings).  `tutor_bookings` is the
`tutor.bookings` relationship. -/
def Tutor.is_available_for_slot (t : Tutor) (tutor_bookings : List Booking)
    (start_dt end_dt : Nat) : Bool :=
  if t.exceptions.any (fun exc => exc.overlaps start_dt end_dt) then false
  else if ! (t.availability_for_day ((start_dt / 1440) % 7)).any
      (fun block => decide (block.start_time ≤ start_dt % 1440)
        && decide (block.end_time ≥ end_dt % 1440)) then false
  else if tutor_bookings.any (fun b => !b.is_canceled
      && decide (b.start_time < end_dt) && decide (b.end_time > start_dt)) then false
  else true

/-- The same three gates evaluated in the opposite order (bookings, then
blocks, then exceptions); used to state that gate order is irrelevant. -/
def is_available_alt (t : Tutor) (tutor_bookings : List Booking)
    (start_dt end_dt : Nat) : Bool :=
  if tutor_bookings.any (fun b => !b.is_canceled
      && decide (b.start_time < end_dt) && decide (b.end_time > start_dt)) then false
  else if ! (t.availability_for_day ((start_dt / 1440) % 7)).any
      (fun block => decide (block.start_time ≤ start_dt % 1440)
        && decide (block.end_time ≥ end_dt % 1440)) then false
  else if t.exceptions.any (fun exc => exc.overlaps start_dt end_dt) then false
  else true

/-- An exception on a different calendar date than `start_dt` never overlaps. -/
theorem overlaps_eq_false_of_ne_date (e : TutorException) (s ed : Nat)
    (h : e.date ≠ s / 1440) : e.overlaps s ed = false := by
  simp [TutorException.overlaps, h]

/-- A date `d` is intersected by the half-open datetime interval `[s, e)`. -/
def intersectsDate (s e d : Nat) : Prop := s < (d + 1) * 1440 ∧ d * 1440 < e

instance (s e d : Nat) : Decidable (intersectsDate s e d) := by
  unfold intersectsDate
  infer_instance

/-- C2: `is_available` holds exactly when all three independent gates hold:
no exception of the tutor on `start`'s date overlaps `[start, end)`, some
weekly block on `start`'s weekday contains the slot's times, and no
non-canceled booking of the tutor overlaps `[start, end)`; and evaluating the
gates in the opposite order (`is_available_alt`) gives the same result, so
the gate order affects only early exit, not the outcome. -/
theorem is_available_gates (t : Tutor) (tbs : List Booking) (s e : Nat) :
    (t.is_available_for_slot tbs s e = true ↔
      ((∀ exc ∈ t.exceptions, exc.date = s / 1440 → exc.overlaps s e = false)
        ∧ (∃ blk ∈ t.weekly_availability, blk.day_of_week = (s / 1440) % 7
            ∧ blk.start_time ≤ s % 1440 ∧ e % 1440 ≤ blk.end_time)
        ∧ (∀ b ∈ tbs, b.is_canceled = false → ¬(b.start_time < e ∧ s < b.end_time))))
    ∧ is_available_alt t tbs s e = t.is_available_for_slot tbs s e := by
  have hexc : t.exceptions.any (fun exc => exc.overlaps s e) = false ↔
      ∀ exc ∈ t.exceptions, exc.date = s / 1440 → exc.overlaps s e = false := by
    rw [List.any_eq_false]
    constructor
    · intro h exc hm _
      simpa using h exc hm
    · intro h exc hm
      by_cases hd : exc.date = s / 1440
      · simpa using h exc hm hd
      · simp [overlaps_eq_false_of_ne_date exc s e hd]
  have hblk : (t.availability_for_day ((s / 1440) % 7)).any
      (fun block => decide (block.start_time ≤ s % 1440)
        && decide (block.end_time ≥ e % 1440)) = true ↔
      ∃ blk ∈ t.weekly_availability, blk.day_of_week = (s / 1440) % 7
        ∧ blk.start_time ≤ s % 1440 ∧ e % 1440 ≤ blk.end_time := by
    rw [List.any_eq_true]
    constructor
    · rintro ⟨blk, hm, hcond⟩
      rcases List.mem_filter.mp hm with ⟨hmem, hday⟩
      refine ⟨blk, hmem, by simpa using hday, ?_, ?_⟩
      · exact (Bool.and_eq_true .. ▸ hcond).1 |> of_decide_eq_true
      · exact (Bool.and_eq_true .. ▸ hcond).2 |> of_decide_eq_true
    · rintro ⟨blk, hmem, hday, h1, h2⟩
      refine ⟨blk, List.mem_filter.mpr ⟨hmem, by simpa using hday⟩, ?_⟩
      simp [h1, h2]
  have hbook : tbs.any (fun b => !b.is_canceled
      && decide (b.start_time < e) && decide (b.end_time > s)) = false ↔
      ∀ b ∈ tbs, b.is_canceled = false → ¬(b.start_time < e ∧ s < b.end_time) := by
    rw [List.any_eq_false]
    constructor
    · intro h b hm hc hov
      have := h b hm
      simp [hc, hov.1, hov.2] at this
    · intro h b hm
      by_cases hc : b.is_canceled
      · simp [hc]
      · have hni := h b hm (by simpa using hc)
        simp only [Bool.not_eq_true] at hc
        simp [hc]
        intro h1
        by_contra hlt
        exact hni ⟨h1, by omega⟩
  have hsplit : ∀ a b c : Bool,
      ((if a then false else if !b then false else if c then false else true) = true
        ↔ (a = false ∧ b = true ∧ c = false)) := by decide
  have halt : ∀ a b c : Bool,
      (if c then false else if !b then false else if a then false else true)
        = (if a then false else if !b then false else if c then false else true) := by
    decide
  constructor
  · rw [Tutor.is_available_for_slot, hsplit, hexc, hblk, hbook]
  · rw [Tutor.is_available_for_slot, is_available_alt, halt]

/-- Tutor used to refute the any-intersected-date reading of the full-day
exception rule: availability all of Monday, plus a full-day blackout on the
following day (day 1). -/
def tutorMidnight : Tutor :=
  { id := 1
    is_active := true
    subjects := [1]
    weekly_availability := [{ day_of_week := 0, start_time := 0, end_time := 1439 }]
    exceptions := [{ date := 1, start_time := none, end_time := none }] }

/-- C4 counterexample: the interval `[23:30 of day 0, 00:30 of day 1)` starts
before `end`, intersects day 1, and `tutorMidnight` has a full-day exception
on day 1, yet `is_available` returns `true`: `overlaps` compares the
exception's date only against `start`'s date, so an interval spilling past
midnight ignores a full-day blackout on the day it spills into. -/
theorem full_day_any_date_counterexample :
    1410 < 1470
    ∧ intersectsDate 1410 1470 1
    ∧ (∃ exc ∈ tutorMidnight.exceptions, exc.is_full_day = true ∧ exc.date = 1)
    ∧ tutorMidnight.is_available_for_slot [] 1410 1470 = true := by
  decide

/-- C4 amended: a full-day exception on `start`'s date makes `is_available`
return `false`, for every interval and hence independently of the interval's
time-of-day (full-day exceptions on other dates the interval intersects are
not consulted, as `full_day_any_date_counterexample` shows). -/
theorem full_day_exception_blocks (t : Tutor) (tbs : List Booking) (s e : Nat)
    (hexc : ∃ exc ∈ t.exceptions, exc.start_time = none ∧ exc.end_time = none
      ∧ exc.date = s / 1440) :
    t.is_available_for_slot tbs s e = false := by
  obtain ⟨exc, hm, hs, he, hd⟩ := hexc
  have hov : exc.overlaps s e = true := by
    simp [TutorException.overlaps, hd, TutorException.is_full_day, hs, he]
  have hany : t.exceptions.any (fun x => x.overlaps s e) = true :=
    List.any_eq_true.mpr ⟨exc, hm, hov⟩
  simp [Tutor.is_available_for_slot, hany]

/-- Witness for `full_day_exception_blocks`: a tutor with a full-day blackout
on day 0 is unavailable for a mid-day slot of day 0. -/
theorem full_day_exception_blocks_witness :
    Tutor.is_available_for_slot
      { id := 1, is_active := true, subjects := [1],
        weekly_availability := [{ day_of_week := 0, start_time := 0, end_time := 1439 }],
        exceptions := [{ date := 0, start_time := none, end_time := none }] }
      [] 600 630 = false :=
  full_day_exception_blocks _ [] 600 630
    ⟨{ date := 0, start_time := none, end_time := none }, by decide, rfl, rfl, by decide⟩

/-- Non-canceled booking count of one tutor (`sum(1 for booking in
tutor.bookings if not booking.is_canceled)`, `models.py` line 251;
`tutor.bookings` is the global list filtered on `tutor_id`). -/
def tutorLoad (bookings : List Booking) (t : Tutor) : Nat :=
  ((bookings.filter (fun b => decide (b.tutor_id = t.id))).filter
    (fun b => !b.is_canceled)).length

/-- Python `min` over a non-empty list (`0` for the empty list, which the
source never reaches). -/
def minList : List Nat → Nat
  | [] => 0
  | x :: xs => xs.foldl Nat.min x

/-- One assignment `d[k] = v` on a Python dict represented as an ordered
association list: overwrite the existing entry, or append a new one. -/
def updateEntry (d : List (Nat × Nat)) (k v : Nat) : List (Nat × Nat) :=
  if d.any (fun p => decide (p.1 = k)) then
    d.map (fun p => if p.1 = k then (k, v) else p)
  else d ++ [(k, v)]

/-- Python dict built from a list of key-value pairs in order (later
occurrences of a key overwrite earlier ones, insertion order kept). -/
def dictOf (l : List (Nat × Nat)) : List (Nat × Nat) :=
  l.foldl (fun d p => updateEntry d p.1 p.2) []

/-- Python dict lookup on the association-list representation. -/
def dictLookup (d : List (Nat × Nat)) (k : Nat) : Option Nat :=
  (d.find? (fun p => decide (p.1 = k))).map (fun p => p.2)

/-- `pick_fair_tutor` (`models.py` lines 247-256): `none` on an empty
candidate list, else build the id-to-load dict, take the minimum load, keep
the candidates whose dict entry equals it, and pick one at random
(`random.choice` modelled by the index parameter `r`). -/
def pick_fair_tutor (r : Nat) (bookings : List Booking)
    (candidates : List Tutor) : Option Tutor :=
  if candidates.isEmpty then none
  else
    let booking_counts := dictOf (candidates.map (fun t => (t.id, tutorLoad bookings t)))
    let min_count := minList (booking_counts.map (fun p => p.2))
    let smallest := candidates.filter
      (fun t => decide (dictLookup booking_counts t.id = some min_count))
    smallest.get? (r % smallest.length)

/-- Folding `Nat.min` only ever lowers the accumulator. -/
theorem foldl_min_le_init (xs : List Nat) (x : Nat) : xs.foldl Nat.min x ≤ x := by
  induction xs generalizing x with
  | nil => exact Nat.le_refl x
  | cons y tl ih =>
    exact Nat.le_trans (ih (Nat.min x y)) (Nat.min_le_left x y)

/-- The fold of `Nat.min` is below every list member. -/
theorem foldl_min_le_mem (xs : List Nat) (x y : Nat) (hy : y ∈ xs) :
    xs.foldl Nat.min x ≤ y := by
  induction xs generalizing x with
  | nil => cases hy
  | cons z tl ih =>
    rcases List.mem_cons.mp hy with rfl | hmem
    · exact Nat.le_trans (foldl_min_le_init tl (Nat.min x y)) (Nat.min_le_right x y)
    · exact ih (Nat.min x z) hmem

/-- The fold of `Nat.min` is the initial value or some list member. -/
theorem foldl_min_eq_init_or_mem (xs : List Nat) (x : Nat) :
    xs.foldl Nat.min x = x ∨ xs.foldl Nat.min x ∈ xs := by
  induction xs generalizing x with
  | nil => exact Or.inl rfl
  | cons y tl ih =>
    rcases ih (Nat.min x y) with heq | hmem
    · rcases Nat.le_total x y with hxy | hyx
      · have hmin : Nat.min x y = x := by simp [Nat.min_def, hxy]
        exact Or.inl (by rw [List.foldl_cons, heq, hmin])
      · refine Or.inr (List.mem_cons.mpr (Or.inl ?_))
        have hmin : Nat.min x y = y := by
          rcases Nat.eq_or_lt_of_le hyx with rfl | hlt
          · simp [Nat.min_def]
          · simp [Nat.min_def, Nat.not_le.mpr hlt]
        rw [List.foldl_cons, heq, hmin]
    · exact Or.inr (List.mem_cons.mpr (Or.inr (by simpa using hmem)))

/-- `minList` is a lower bound of the list. -/
theorem minList_le (l : List Nat) (y : Nat) (hy : y ∈ l) : minList l ≤ y := by
  cases l with
  | nil => cases hy
  | cons x xs =>
    rcases List.mem_cons.mp hy with rfl | hmem
    · exact foldl_min_le_init xs y
    · exact foldl_min_le_mem xs x y hmem

/-- `minList` of a non-empty list is attained by some member. -/
theorem minList_mem (l : List Nat) (hne : l ≠ []) : minList l ∈ l := by
  cases l with
  | nil => exact absurd rfl hne
  | cons x xs =>
    rcases foldl_min_eq_init_or_mem xs x with heq | hmem
    · exact List.mem_cons.mpr (Or.inl heq)
    · exact List.mem_cons.mpr (Or.inr (by simpa [minList] using hmem))

/-- Building a dict from pairs with pairwise distinct keys keeps the pairs
unchanged; generalized over the accumulator. -/
theorem foldl_update_of_disjoint :
    ∀ (l acc : List (Nat × Nat)),
      (∀ p ∈ l, ∀ q ∈ acc, p.1 ≠ q.1) → (l.map (fun p => p.1)).Nodup →
      l.foldl (fun d p => updateEntry d p.1 p.2) acc = acc ++ l := by
  intro l
  induction l with
  | nil => intro acc _ _; simp
  | cons p tl ih =>
    intro acc hdisj hnd
    have hnotin : (acc.any (fun q => decide (q.1 = p.1))) = false := by
      rw [List.any_eq_false]
      intro q hq
      simpa using (hdisj p (List.mem_cons_self p tl) q hq).symm
    have hstep : updateEntry acc p.1 p.2 = acc ++ [p] := by
      rw [updateEntry, if_neg (by simp [hnotin])]
    rw [List.foldl_cons, hstep, ih (acc ++ [p]) ?_ (List.nodup_cons.mp hnd).2]
    · simp
    · intro q hq q2 hq2
      rcases List.mem_append.mp hq2 with hacc | hsing
      · exact hdisj q (List.mem_cons_of_mem p hq) q2 hacc
      · rcases List.mem_singleton.mp hsing with rfl
        have hkey : q.1 ∈ tl.map (fun x => x.1) := List.mem_map.mpr ⟨q, hq, rfl⟩
        intro heq
        rw [heq] at hkey
        exact (List.nodup_cons.mp hnd).1 hkey

/-- With pairwise distinct keys, `dictOf` is the identity. -/
theorem dictOf_eq_self (l : List (Nat × Nat)) (hnd : (l.map (fun p => p.1)).Nodup) :
    dictOf l = l := by
  rw [dictOf, foldl_update_of_disjoint l [] (by intro p _ q hq; cases hq) hnd]
  simp

/-- First-match lookup of a tutor's own id in the id-to-load pair list, when
tutor ids are pairwise distinct. -/
theorem find_pair_of_nodup (bookings : List Booking) :
    ∀ (l : List Tutor) (t : Tutor), t ∈ l → (l.map (fun u => u.id)).Nodup →
      (l.map (fun u => (u.id, tutorLoad bookings u))).find?
          (fun p => decide (p.1 = t.id))
        = some (t.id, tutorLoad bookings t) := by
  intro l
  induction l with
  | nil => intro t h; cases h
  | cons u tl ih =>
    intro t hmem hnd
    rw [List.map_cons]
    by_cases hid : u.id = t.id
    · have ht : u = t := by
        rcases List.mem_cons.mp hmem with rfl | htl
        · rfl
        · exfalso
          have : u.id ∈ tl.map (fun x => x.id) := List.mem_map.mpr ⟨t, htl, hid.symm⟩
          exact (List.nodup_cons.mp hnd).1 this
      subst ht
      rw [List.find?_cons_of_pos _ (by simp)]
    · have htl : t ∈ tl := by
        rcases List.mem_cons.mp hmem with rfl | htl
        · exact absurd rfl hid
        · exact htl
      rw [List.find?_cons_of_neg _ (by simp [hid])]
      exact ih t htl (List.nodup_cons.mp hnd).2

/-- A filter whose predicate singles out one element of a duplicate-free list
returns exactly that element. -/
theorem filter_eq_singleton (p : Tutor → Bool) :
    ∀ (l : List Tutor) (t : Tutor), t ∈ l → (l.map (fun u => u.id)).Nodup →
      (∀ u ∈ l, p u = true ↔ u = t) → l.filter p = [t] := by
  intro l
  induction l with
  | nil => intro t h; cases h
  | cons u tl ih =>
    intro t hmem hnd hp
    by_cases hut : u = t
    · subst hut
      have hpu : p u = true := (hp u (List.mem_cons_self u tl)).mpr rfl
      have hrest : tl.filter p = [] := by
        rw [List.filter_eq_nil_iff]
        intro v hv hpv
        have hvu : v = u := (hp v (List.mem_cons_of_mem u hv)).mp hpv
        subst hvu
        exact (List.nodup_cons.mp hnd).1 (List.mem_map.mpr ⟨v, hv, rfl⟩)
      rw [List.filter_cons_of_pos hpu, hrest]
    · have hpu : p u = false := by
        cases hcase : p u
        · rfl
        · exact absurd ((hp u (List.mem_cons_self u tl)).mp hcase) hut
      have htl : t ∈ tl := by
        rcases List.mem_cons.mp hmem with rfl | htl
        · exact absurd rfl hut
        · exact htl
      rw [List.filter_cons_of_neg (by simp [hpu])]
      exact ih t htl (List.nodup_cons.mp hnd).2
        (fun v hv => hp v (List.mem_cons_of_mem u hv))

/-- Under distinct tutor ids (the primary-key invariant), `pick_fair_tutor`
reduces to choosing, by the random index, among the candidates of minimum
load. -/
theorem pick_fair_tutor_eq_filter (r : Nat) (bookings : List Booking)
    (candidates : List Tutor) (hids : (candidates.map (fun t => t.id)).Nodup)
    (hne : candidates ≠ []) :
    pick_fair_tutor r bookings candidates =
      (candidates.filter (fun t => decide (tutorLoad bookings t
        = minList (candidates.map (fun u => tutorLoad bookings u))))).get?
        (r % (candidates.filter (fun t => decide (tutorLoad bookings t
          = minList (candidates.map (fun u => tutorLoad bookings u))))).length) := by
  have hkeys : ((candidates.map (fun u => (u.id, tutorLoad bookings u))).map
      (fun p => p.1)).Nodup := by
    rw [List.map_map]
    simpa [Function.comp] using hids
  have hdict : dictOf (candidates.map (fun u => (u.id, tutorLoad bookings u)))
      = candidates.map (fun u => (u.id, tutorLoad bookings u)) :=
    dictOf_eq_self _ hkeys
  have hvals : (candidates.map (fun u => (u.id, tutorLoad bookings u))).map
      (fun p => p.2) = candidates.map (fun u => tutorLoad bookings u) := by
    rw [List.map_map]
    rfl
  have hlook : ∀ t ∈ candidates,
      dictLookup (candidates.map (fun u => (u.id, tutorLoad bookings u))) t.id
        = some (tutorLoad bookings t) := by
    intro t ht
    rw [dictLookup, find_pair_of_nodup bookings candidates t ht hids]
    rfl
  have hfilt : candidates.filter (fun t =>
        decide (dictLookup (candidates.map (fun u => (u.id, tutorLoad bookings u))) t.id
          = some (minList (candidates.map (fun u => tutorLoad bookings u)))))
      = candidates.filter (fun t => decide (tutorLoad bookings t
          = minList (candidates.map (fun u => tutorLoad bookings u)))) := by
    apply List.filter_congr
    intro t ht
    rw [hlook t ht]
    simp
  rw [pick_fair_tutor, if_neg (by simpa using hne)]
  simp only [hdict, hvals, hfilt]

/-- C5: `pick_fair_tutor` returns `none` exactly on an empty candidate list;
any returned tutor is a candidate of minimum non-canceled booking load; and
with a unique minimum it returns that candidate for every random index, i.e.
on every call.  Tutor ids are assumed pairwise distinct (primary key). -/
theorem pick_fair_tutor_spec (r : Nat) (bookings : List Booking)
    (candidates : List Tutor) (hids : (candidates.map (fun t => t.id)).Nodup) :
    (pick_fair_tutor r bookings candidates = none ↔ candidates = [])
    ∧ (∀ t, pick_fair_tutor r bookings candidates = some t →
        t ∈ candidates ∧ ∀ u ∈ candidates, tutorLoad bookings t ≤ tutorLoad bookings u)
    ∧ (∀ t, t ∈ candidates →
        (∀ u ∈ candidates, u ≠ t → tutorLoad bookings t < tutorLoad bookings u) →
        ∀ r2, pick_fair_tutor r2 bookings candidates = some t) := by
  by_cases hne : candidates = []
  · subst hne
    refine ⟨by simp [pick_fair_tutor], ?_, ?_⟩
    · intro t ht
      rw [pick_fair_tutor] at ht
      simp at ht
    · intro t ht
      cases ht
  · have hpick := pick_fair_tutor_eq_filter r bookings candidates hids hne
    have hmapne : candidates.map (fun u => tutorLoad bookings u) ≠ [] := by
      simpa using hne
    have hminmem := minList_mem _ hmapne
    obtain ⟨t0, ht0mem, ht0load⟩ := List.mem_map.mp hminmem
    have ht0f : t0 ∈ candidates.filter (fun t => decide (tutorLoad bookings t
        = minList (candidates.map (fun u => tutorLoad bookings u)))) :=
      List.mem_filter.mpr ⟨ht0mem, by simp [ht0load]⟩
    have hfne : candidates.filter (fun t => decide (tutorLoad bookings t
        = minList (candidates.map (fun u => tutorLoad bookings u)))) ≠ [] := by
      intro hnil
      rw [hnil] at ht0f
      cases ht0f
    have hlen : 0 < (candidates.filter (fun t => decide (tutorLoad bookings t
        = minList (candidates.map (fun u => tutorLoad bookings u))))).length :=
      List.length_pos.mpr hfne
    refine ⟨?_, ?_, ?_⟩
    · constructor
      · intro hnone
        rw [hpick] at hnone
        have hlt := Nat.mod_lt r hlen
        rw [List.get?_eq_get hlt] at hnone
        cases hnone
      · intro h
        exact absurd h hne
    · intro t hsome
      rw [hpick] at hsome
      have htmem := List.get?_mem hsome
      rcases List.mem_filter.mp htmem with ⟨hc, hp⟩
      refine ⟨hc, ?_⟩
      intro u hu
      have hteq : tutorLoad bookings t
          = minList (candidates.map (fun u => tutorLoad bookings u)) := by
        simpa using hp
      rw [hteq]
      exact minList_le _ _ (List.mem_map.mpr ⟨u, hu, rfl⟩)
    · intro t htmem huniq r2
      have hmin_eq : minList (candidates.map (fun u => tutorLoad bookings u))
          = tutorLoad bookings t := by
        by_cases h0 : t0 = t
        · rw [← ht0load, h0]
        · have h1 : tutorLoad bookings t < tutorLoad bookings t0 := huniq t0 ht0mem h0
          have h2 : minList (candidates.map (fun u => tutorLoad bookings u))
              ≤ tutorLoad bookings t :=
            minList_le _ _ (List.mem_map.mpr ⟨t, htmem, rfl⟩)
          omega
      have hp : ∀ u ∈ candidates, (fun v => decide (tutorLoad bookings v
          = minList (candidates.map (fun w => tutorLoad bookings w)))) u = true ↔ u = t := by
        intro u hu
        constructor
        · intro hpu
          by_contra hne2
          have h1 := huniq u hu hne2
          have h2 : tutorLoad bookings u
              = minList (candidates.map (fun w => tutorLoad bookings w)) := by
            simpa using hpu
          omega
        · rintro rfl
          simp [hmin_eq]
      have hfilt := filter_eq_singleton _ candidates t htmem hids hp
      have hpick2 := pick_fair_tutor_eq_filter r2 bookings candidates hids hne
      rw [hpick2, hfilt]
      simp [Nat.mod_one]

/-- Witness for `pick_fair_tutor_spec`: two candidates with loads 0 and 1 and
distinct ids; the lighter-loaded tutor is chosen on every call. -/
theorem pick_fair_tutor_spec_witness :
    pick_fair_tutor 7
      [{ id := 10, tutor_id := 2, subject_id := some 1, student_name := "s",
         student_phone := "p", start_time := 0, end_time := 30, created_at := 0,
         is_canceled := false, canceled_at := none, cancel_reason := none }]
      [{ id := 1, is_active := true, subjects := [1], weekly_availability := [],
         exceptions := [] },
       { id := 2, is_active := true, subjects := [1], weekly_availability := [],
         exceptions := [] }]
      = some { id := 1, is_active := true, subjects := [1],
               weekly_availability := [], exceptions := [] } :=
  (pick_fair_tutor_spec 0
      [{ id := 10, tutor_id := 2, subject_id := some 1, student_name := "s",
         student_phone := "p", start_time := 0, end_time := 30, created_at := 0,
         is_canceled := false, canceled_at := none, cancel_reason := none }]
      [{ id := 1, is_active := true, subjects := [1], weekly_availability := [],
         exceptions := [] },
       { id := 2, is_active := true, subjects := [1], weekly_availability := [],
         exceptions := [] }]
      (by decide)).2.2
    { id := 1, is_active := true, subjects := [1], weekly_availability := [],
      exceptions := [] }
    (by decide) (by decide) 7

/-- `_minimum_bookable_date` (`student_routes.py` lines 28-34): tomorrow, or
the day after when the Pacific time of day has reached 22:00 (second
`79200`).  `now` is split into its date (day index) and time of day in
seconds. -/
def minimumBookableDate (nowDate nowTimeSec : Nat) : Nat :=
  let min_date := nowDate + 1
  if 79200 ≤ nowTimeSec then min_date + 1 else min_date

/-- Rendering of a date in the denial message.  The source formats with
`strftime` (month name, day, year); only the rendering differs, so the
formatted date is abstracted to the decimal day index. -/
def formatLongDate (d : Nat) : String := toString d

/-- Suffix appended to every denial reason (`student_routes.py` line 45). -/
def windowSuffix (min_date : Nat) : String :=
  " Earliest available date is " ++ formatLongDate min_date

/-- `_booking_window_status` (`student_routes.py` lines 37-47): allowed flag,
message, and the earliest bookable date. -/
def bookingWindowStatus (target_date nowDate nowTimeSec : Nat) :
    Bool × String × Nat :=
  let min_date := minimumBookableDate nowDate nowTimeSec
  if target_date < min_date then
    let reason := if target_date ≤ nowDate then "Same-day bookings are not available."
      else "After 10:00 PM Pacific, next-day sessions close."
    (false, reason ++ windowSuffix min_date, min_date)
  else (true, "", min_date)

/-- C6: before the 22:00 cutoff (seconds `79200`; in particular at 21:00:00
and 21:59:59) the earliest bookable date is `now.date + 1`, from the cutoff
on it is `now.date + 2`; the window check denies exactly when the target
date is before the earliest bookable date; and the denial reason for a
same-day-or-past target differs from the after-cutoff reason. -/
theorem booking_window_spec (nowDate nowTimeSec target_date : Nat) :
    (nowTimeSec < 79200 → minimumBookableDate nowDate nowTimeSec = nowDate + 1)
    ∧ (79200 ≤ nowTimeSec → minimumBookableDate nowDate nowTimeSec = nowDate + 2)
    ∧ ((bookingWindowStatus target_date nowDate nowTimeSec).1 = false ↔
        target_date < minimumBookableDate nowDate nowTimeSec)
    ∧ (target_date < minimumBookableDate nowDate nowTimeSec → target_date ≤ nowDate →
        (bookingWindowStatus target_date nowDate nowTimeSec).2.1
          = "Same-day bookings are not available."
            ++ windowSuffix (minimumBookableDate nowDate nowTimeSec))
    ∧ (target_date < minimumBookableDate nowDate nowTimeSec → nowDate < target_date →
        (bookingWindowStatus target_date nowDate nowTimeSec).2.1
          = "After 10:00 PM Pacific, next-day sessions close."
            ++ windowSuffix (minimumBookableDate nowDate nowTimeSec))
    ∧ (∀ d : Nat, "Same-day bookings are not available." ++ windowSuffix d
        ≠ "After 10:00 PM Pacific, next-day sessions close." ++ windowSuffix d) := by
  refine ⟨?_, ?_, ?_, ?_, ?_, ?_⟩
  · intro h
    simp [minimumBookableDate, Nat.not_le.mpr h]
  · intro h
    simp [minimumBookableDate, h]
  · rw [bookingWindowStatus]
    by_cases hlt : target_date < minimumBookableDate nowDate nowTimeSec
    · simp [hlt]
    · simp [hlt]
  · intro hlt hsame
    rw [bookingWindowStatus]
    simp [hlt, hsame]
  · intro hlt hafter
    rw [bookingWindowStatus]
    simp [hlt, Nat.not_le.mpr hafter]
  · intro d heq
    have hlen := congrArg String.length heq
    rw [String.length_append, String.length_append] at hlen
    have h1 : ("Same-day bookings are not available." : String).length = 36 := by decide
    have h2 : ("After 10:00 PM Pacific, next-day sessions close." : String).length = 48 := by
      decide
    omega

/-- Witness for `booking_window_spec`: 21:00:00 and 21:59:59 give `D+1`,
22:00:00 gives `D+2`, and a same-day target on day `D = 5` is denied. -/
theorem booking_window_spec_witness :
    minimumBookableDate 5 75600 = 6
    ∧ minimumBookableDate 5 79199 = 6
    ∧ minimumBookableDate 5 79200 = 7
    ∧ (bookingWindowStatus 5 5 75600).1 = false :=
  ⟨(booking_window_spec 5 75600 5).1 (by decide),
   (booking_window_spec 5 79199 5).1 (by decide),
   (booking_window_spec 5 79200 5).2.1 (by decide),
   ((booking_window_spec 5 75600 5).2.2.1).mpr (by decide)⟩

/-- Reason normalization in `cancel_booking` (`tutor_routes.py` lines
276-279): strip, empty becomes absent, then keep at most 255 characters. -/
def strippedReason (raw : String) : Option String :=
  let r := raw.trim
  if r = "" then none else some (String.mk (r.toList.take 255))

/-- `cancel_booking` (`tutor_routes.py` lines 262-283) on the booking store:
unknown id (404) or another tutor's booking or an already-canceled booking
leaves the store unchanged; otherwise only the cancellation fields of the
addressed booking are set.  The session/login handling around it is
presentation glue and not modelled. -/
def cancel_booking (bookings : List Booking) (tutor_id booking_id : Nat)
    (raw_reason : String) (now : Nat) : List Booking :=
  match bookings.find? (fun b => decide (b.id = booking_id)) with
  | none => bookings
  | some b =>
    if b.tutor_id ≠ tutor_id then bookings
    else if b.is_canceled then bookings
    else bookings.map (fun x =>
      if x.id = booking_id then
        { x with is_canceled := true, canceled_at := some now,
                 cancel_reason := strippedReason raw_reason }
      else x)

/-- C9: `cancel` never deletes a row (the store keeps its length); applied
to an already-canceled booking it changes nothing (idempotent no-op); applied
to the addressed tutor's non-canceled booking it performs the cancellation:
every row maps to itself unless it carries the addressed id, which gets
exactly the canceled flag, the cancellation timestamp and the truncated
reason set, and in particular the addressed booking itself ends up stored
with exactly those three fields changed; in every branch each row keeps its
tutor, student identity, times and creation time, and any stored reason has
at most 255 characters.  Booking ids are assumed pairwise distinct (primary
key). -/
theorem cancel_booking_spec (bookings : List Booking) (tutor_id booking_id : Nat)
    (raw : String) (now : Nat)
    (hids : (bookings.map (fun b => b.id)).Nodup) :
    ((cancel_booking bookings tutor_id booking_id raw now).length = bookings.length)
    ∧ (∀ b, bookings.find? (fun x => decide (x.id = booking_id)) = some b →
        b.is_canceled = true →
        cancel_booking bookings tutor_id booking_id raw now = bookings)
    ∧ (∀ b, bookings.find? (fun x => decide (x.id = booking_id)) = some b →
        b.tutor_id = tutor_id → b.is_canceled = false →
        ∀ i old, bookings.get? i = some old →
          (cancel_booking bookings tutor_id booking_id raw now).get? i
            = some (if old.id = booking_id then
                { old with is_canceled := true, canceled_at := some now,
                           cancel_reason := strippedReason raw }
              else old))
    ∧ (∀ b, bookings.find? (fun x => decide (x.id = booking_id)) = some b →
        b.tutor_id = tutor_id → b.is_canceled = false →
        ∃ i, (cancel_booking bookings tutor_id booking_id raw now).get? i
          = some { b with is_canceled := true, canceled_at := some now,
                          cancel_reason := strippedReason raw })
    ∧ (∀ i old, bookings.get? i = some old →
        ∃ new, (cancel_booking bookings tutor_id booking_id raw now).get? i = some new
          ∧ new.tutor_id = old.tutor_id
          ∧ new.student_name = old.student_name
          ∧ new.student_phone = old.student_phone
          ∧ new.start_time = old.start_time
          ∧ new.end_time = old.end_time
          ∧ new.created_at = old.created_at
          ∧ new.id = old.id
          ∧ new.subject_id = old.subject_id
          ∧ (new = old ∨ (old.id = booking_id ∧ old.is_canceled = false
              ∧ new.is_canceled = true ∧ new.canceled_at = some now
              ∧ new.cancel_reason = strippedReason raw)))
    ∧ (∀ s, strippedReason raw = some s → s.length ≤ 255) := by
  have htrunc : ∀ s, strippedReason raw = some s → s.length ≤ 255 := by
    intro s hs
    rw [strippedReason] at hs
    by_cases hr : raw.trim = ""
    · rw [if_pos hr] at hs
      cases hs
    · rw [if_neg hr] at hs
      have : s = String.mk (raw.trim.toList.take 255) := (Option.some.inj hs).symm
      subst this
      show (raw.trim.toList.take 255).length ≤ 255
      rw [List.length_take]
      omega
  rcases hf : bookings.find? (fun b => decide (b.id = booking_id)) with _ | b
  · refine ⟨by simp [cancel_booking, hf], ?_, ?_, ?_, ?_, htrunc⟩
    · intro b hb
      rw [hf] at hb
      cases hb
    · intro b hb
      rw [hf] at hb
      cases hb
    · intro b hb
      rw [hf] at hb
      cases hb
    · intro i old hold
      refine ⟨old, ?_, rfl, rfl, rfl, rfl, rfl, rfl, rfl, rfl, Or.inl rfl⟩
      simp only [cancel_booking, hf]
      simpa using hold
  · by_cases howner : b.tutor_id ≠ tutor_id
    · refine ⟨by simp [cancel_booking, hf, howner], ?_, ?_, ?_, ?_, htrunc⟩
      · intro b2 hb2 _
        simp [cancel_booking, hf, howner]
      · intro b2 hb2 hown2
        rw [hf] at hb2
        rcases Option.some.inj hb2 with rfl
        exact absurd hown2 howner
      · intro b2 hb2 hown2
        rw [hf] at hb2
        rcases Option.some.inj hb2 with rfl
        exact absurd hown2 howner
      · intro i old hold
        refine ⟨old, ?_, rfl, rfl, rfl, rfl, rfl, rfl, rfl, rfl, Or.inl rfl⟩
        simp only [cancel_booking, hf]
        rw [if_pos howner]
        simpa using hold
    · by_cases hcanc : b.is_canceled
      · refine ⟨by simp [cancel_booking, hf, howner, hcanc], ?_, ?_, ?_, ?_, htrunc⟩
        · intro b2 hb2 _
          simp [cancel_booking, hf, howner, hcanc]
        · intro b2 hb2 _ hcanc2
          rw [hf] at hb2
          rcases Option.some.inj hb2 with rfl
          rw [hcanc] at hcanc2
          cases hcanc2
        · intro b2 hb2 _ hcanc2
          rw [hf] at hb2
          rcases Option.some.inj hb2 with rfl
          rw [hcanc] at hcanc2
          cases hcanc2
        · intro i old hold
          refine ⟨old, ?_, rfl, rfl, rfl, rfl, rfl, rfl, rfl, rfl, Or.inl rfl⟩
          simp only [cancel_booking, hf]
          rw [if_neg howner, if_pos hcanc]
          simpa using hold
      · have hred : cancel_booking bookings tutor_id booking_id raw now
            = bookings.map (fun x =>
              if x.id = booking_id then
                { x with is_canceled := true, canceled_at := some now,
                         cancel_reason := strippedReason raw }
              else x) := by
          simp [cancel_booking, hf, howner, hcanc]
        refine ⟨by rw [hred]; simp, ?_, ?_, ?_, ?_, htrunc⟩
        · intro b2 hb2 hb2c
          rw [hf] at hb2
          rcases Option.some.inj hb2 with rfl
          exact absurd hb2c (by simpa using hcanc)
        · intro b2 hb2 _ _ i old hold
          rw [hred, List.get?_map, hold]
          rfl
        · intro b2 hb2 _ _
          rw [hf] at hb2
          rcases Option.some.inj hb2 with rfl
          have hbmem : b ∈ bookings := List.mem_of_find?_eq_some hf
          obtain ⟨i, hi⟩ := List.get?_of_mem hbmem
          refine ⟨i, ?_⟩
          rw [hred, List.get?_map, hi]
          have hbid : b.id = booking_id := by simpa using List.find?_some hf
          simp [hbid]
        · intro i old hold
          rw [hred]
          by_cases hid : old.id = booking_id
          · have hbmem : b ∈ bookings := List.mem_of_find?_eq_some hf
            have holdmem : old ∈ bookings := List.get?_mem hold
            have hbid : b.id = booking_id := by
              have := List.find?_some hf
              simpa using this
            have holdb : old = b := by
              apply List.inj_on_of_nodup_map hids holdmem hbmem
              rw [hid, hbid]
            have holdc : old.is_canceled = false := by
              rw [holdb]
              simpa using hcanc
            exact ⟨{ old with is_canceled := true, canceled_at := some now, cancel_reason := strippedReason raw }, by rw [List.get?_map, hold]; simp [hid], rfl, rfl, rfl, rfl, rfl, rfl, rfl, rfl, Or.inr ⟨hid, holdc, rfl, rfl, rfl⟩⟩
          · refine ⟨old, ?_, rfl, rfl, rfl, rfl, rfl, rfl, rfl, rfl, Or.inl rfl⟩
            rw [List.get?_map, hold]
            simp [hid]

/-- Concrete booking used by the `cancel_booking_spec` witness: booking 10
of tutor 2, not canceled. -/
def bookingWitness : Booking :=
  { id := 10, tutor_id := 2, subject_id := some 1, student_name := "s",
    student_phone := "p", start_time := 0, end_time := 30, created_at := 0,
    is_canceled := false, canceled_at := none, cancel_reason := none }

/-- Witness for `cancel_booking_spec`: canceling the only booking as its own
tutor really stores it back with the canceled flag, timestamp and truncated
reason set. -/
theorem cancel_booking_spec_witness :
    ∃ i, (cancel_booking [bookingWitness] 2 10 "busy" 99).get? i
      = some { bookingWitness with is_canceled := true, canceled_at := some 99, cancel_reason := strippedReason "busy" } :=
  (cancel_booking_spec [bookingWitness] 2 10 "busy" 99 (by decide)).2.2.2.1
    bookingWitness (by decide) (by decide) (by decide)


/-- `available_tutors_for_slot` (`models.py` lines 232-244): active tutors
teaching the subject, kept when `is_available_for_slot` passes for the
interval (their bookings being the global list filtered on `tutor_id`). -/
def available_tutors_for_slot (tutors : List Tutor) (bookings : List Booking)
    (subject_id start_dt end_dt : Nat) : List Tutor :=
  (tutors.filter (fun t => t.subjects.contains subject_id && t.is_active)).filter
    (fun t => t.is_available_for_slot
      (bookings.filter (fun b => decide (b.tutor_id = t.id))) start_dt end_dt)

/-- Outcome of `db.session.commit()` for the insert in `book`
(`student_routes.py` lines 164-170): success, failure of the
`uq_tutor_booking_start` uniqueness constraint, or any other error.  The
source's bare `except Exception` cannot tell the latter two apart. -/
inductive CommitOutcome
  | success
  | uniqueViolation
  | otherError
deriving DecidableEq

/-- Observable result of the `book` route: a re-rendered booking page with a
flashed message and category, or the confirmation page with the persisted
booking. -/
inductive BookResult
  | page (message category : String)
  | confirmation (b : Booking)
deriving DecidableEq

/-- Typed inputs of the `book` route (`student_routes.py` lines 104-183).
Form parsing (`strptime`, `int(...)`) is presentation glue and not
modelled: the fields arrive already typed; `name` and `phone` keep their
emptiness check.  `newId`/`createdAt` are the storage-assigned id and
timestamp of the inserted row, `r` the randomness index of
`pick_fair_tutor`. -/
structure BookArgs where
  name : String
  phone : String
  subject_id : Nat
  target_date : Nat
  start_time : Nat
  slot_minutes : Nat
  nowDate : Nat
  nowTimeSec : Nat
  r : Nat
  newId : Nat
  createdAt : Nat
deriving DecidableEq

/-- `book` (`student_routes.py` lines 104-183): completeness check, subject
existence, booking-window gate, candidate recomputation, fair selection
(capacity conflict when none), insert, and the single `try/except` around
commit that rolls back and flashes one generic failure message.  Returns the
rendered result and the booking store after the call. -/
def book (subjects : List Nat) (tutors : List Tutor) (bookings : List Booking)
    (a : BookArgs) (commit : CommitOutcome) : BookResult × List Booking :=
  if a.name = "" || a.phone = "" then
    (BookResult.page "Please complete all booking details." "danger", bookings)
  else if ! subjects.contains a.subject_id then
    (BookResult.page "Selected subject no longer exists." "danger", bookings)
  else if (bookingWindowStatus a.target_date a.nowDate a.nowTimeSec).1 = false then
    (BookResult.page (bookingWindowStatus a.target_date a.nowDate a.nowTimeSec).2.1
      "warning", bookings)
  else
    match pick_fair_tutor a.r bookings
      (available_tutors_for_slot tutors bookings a.subject_id
        (a.target_date * 1440 + a.start_time)
        (a.target_date * 1440 + a.start_time + a.slot_minutes)) with
    | none =>
      (BookResult.page "Sorry, that time was just booked. Please choose another slot."
        "warning", bookings)
    | some tutor =>
      let booking : Booking :=
        { id := a.newId
          tutor_id := tutor.id
          subject_id := some a.subject_id
          student_name := a.name
          student_phone := a.phone
          start_time := a.target_date * 1440 + a.start_time
          end_time := a.target_date * 1440 + a.start_time + a.slot_minutes
          created_at := a.createdAt
          is_canceled := false
          canceled_at := none
          cancel_reason := none }
      match commit with
      | CommitOutcome.success => (BookResult.confirmation booking, bookings ++ [booking])
      | CommitOutcome.uniqueViolation =>
        (BookResult.page "Unable to confirm booking. Please try another time slot."
          "danger", bookings)
      | CommitOutcome.otherError =>
        (BookResult.page "Unable to confirm booking. Please try another time slot."
          "danger", bookings)

/-- Tutor for the race-conflict scenario: active, teaches subject 1, free
all of the target weekday. -/
def tutorRace : Tutor :=
  { id := 1
    is_active := true
    subjects := [1]
    weekly_availability := [{ day_of_week := 2, start_time := 0, end_time := 1439 }]
    exceptions := [] }

/-- Arguments for the race-conflict scenario: a valid request two days out,
10:00-10:30 on day 2, placed at midnight of day 0. -/
def argsRace : BookArgs :=
  { name := "n"
    phone := "p"
    subject_id := 1
    target_date := 2
    start_time := 600
    slot_minutes := 30
    nowDate := 0
    nowTimeSec := 0
    r := 0
    newId := 5
    createdAt := 7 }

/-- C7 counterexample: at a concrete state that reaches the commit (the
`success` outcome confirms a booking), a commit failing with the uniqueness
violation produces exactly the same report as a commit failing for any other
reason — the source's bare `except Exception` does not distinguish them, so
the race conflict is not reported distinctly from other persistence
failures. -/
theorem race_conflict_counterexample :
    book [1] [tutorRace] [] argsRace CommitOutcome.uniqueViolation
      = book [1] [tutorRace] [] argsRace CommitOutcome.otherError
    ∧ (book [1] [tutorRace] [] argsRace CommitOutcome.success).1
      = BookResult.confirmation
          { id := 5, tutor_id := 1, subject_id := some 1, student_name := "n",
            student_phone := "p", start_time := 3480, end_time := 3510,
            created_at := 7, is_canceled := false, canceled_at := none,
            cancel_reason := none }
    ∧ (book [1] [tutorRace] [] argsRace CommitOutcome.uniqueViolation).1
      = BookResult.page "Unable to confirm booking. Please try another time slot."
          "danger" := by
  refine ⟨by decide, by decide, by decide⟩

/-- C7 amended: a commit failure is reported with one generic message that is
distinct from the capacity-conflict message, the store is left unchanged (no
internal retry, rollback semantics), but the uniqueness violation is *not*
reported distinctly from other persistence failures: both failure outcomes
produce the identical result. -/
theorem book_failure_reporting (subjects : List Nat) (tutors : List Tutor)
    (bookings : List Booking) (a : BookArgs) :
    (book subjects tutors bookings a CommitOutcome.uniqueViolation
      = book subjects tutors bookings a CommitOutcome.otherError)
    ∧ ((book subjects tutors bookings a CommitOutcome.uniqueViolation).2 = bookings)
    ∧ ((book subjects tutors bookings a CommitOutcome.uniqueViolation).1
        = BookResult.page "Unable to confirm booking. Please try another time slot."
            "danger" →
       (book subjects tutors bookings a CommitOutcome.uniqueViolation).1
        ≠ BookResult.page "Sorry, that time was just booked. Please choose another slot."
            "warning") := by
  refine ⟨?_, ?_, ?_⟩
  · simp only [book]
  · simp only [book]
    repeat' split
    all_goals rfl
  · intro hmsg
    rw [hmsg]
    intro hcontra
    have := BookResult.page.inj hcontra
    exact absurd this.1 (by decide)

/-- Witness for `book_failure_reporting` at the race scenario. -/
theorem book_failure_reporting_witness :
    (book [1] [tutorRace] [] argsRace CommitOutcome.uniqueViolation).1
      ≠ BookResult.page "Sorry, that time was just booked. Please choose another slot."
          "warning" :=
  (book_failure_reporting [1] [tutorRace] [] argsRace).2.2 (by decide)

/-- Two bookings are compatible when, if they belong to the same tutor and
neither is canceled, their half-open intervals do not overlap. -/
def BookingsCompatible (a b : Booking) : Prop :=
  a.tutor_id = b.tutor_id → a.is_canceled = false → b.is_canceled = false →
    ¬(a.start_time < b.end_time ∧ b.start_time < a.end_time)

/-- The per-tutor non-overlap invariant on the booking store: no two entries
of the same tutor that are both non-canceled have overlapping intervals. -/
def NoOverlap (bookings : List Booking) : Prop :=
  List.Pairwise BookingsCompatible bookings

/-- A tutor returned by `pick_fair_tutor` is one of the candidates. -/
theorem pick_fair_tutor_mem (r : Nat) (bookings : List Booking)
    (candidates : List Tutor) (t : Tutor)
    (h : pick_fair_tutor r bookings candidates = some t) : t ∈ candidates := by
  rw [pick_fair_tutor] at h
  by_cases hemp : candidates.isEmpty
  · rw [if_pos hemp] at h
    cases h
  · rw [if_neg hemp] at h
    exact List.mem_of_mem_filter (List.get?_mem h)

/-- Members of `available_tutors_for_slot` pass the availability check for
the interval. -/
theorem mem_available_tutors (tutors : List Tutor) (bookings : List Booking)
    (subject_id s e : Nat) (t : Tutor)
    (h : t ∈ available_tutors_for_slot tutors bookings subject_id s e) :
    t.is_available_for_slot
      (bookings.filter (fun b => decide (b.tutor_id = t.id))) s e = true := by
  rw [available_tutors_for_slot] at h
  exact (List.mem_filter.mp h).2

/-- The booking gate of `is_available_for_slot`, extracted: a passing check
means no non-canceled booking of the tutor overlaps the interval. -/
theorem is_available_booking_gate (t : Tutor) (tbs : List Booking) (s e : Nat)
    (h : t.is_available_for_slot tbs s e = true) :
    ∀ b ∈ tbs, b.is_canceled = false → ¬(b.start_time < e ∧ s < b.end_time) := by
  intro b hb hc hov
  rw [Tutor.is_available_for_slot] at h
  by_cases h1 : t.exceptions.any (fun exc => exc.overlaps s e) = true
  · rw [if_pos h1] at h
    cases h
  · rw [if_neg h1] at h
    by_cases h2 : (! (t.availability_for_day ((s / 1440) % 7)).any
        (fun block => decide (block.start_time ≤ s % 1440)
          && decide (block.end_time ≥ e % 1440))) = true
    · rw [if_pos h2] at h
      cases h
    · rw [if_neg h2] at h
      have h3 : tbs.any (fun x => !x.is_canceled
          && decide (x.start_time < e) && decide (x.end_time > s)) = true :=
        List.any_eq_true.mpr ⟨b, hb, by simp [hc, hov.1, hov.2]⟩
      rw [if_pos h3] at h
      cases h

/-- A successful `book` preserves the per-tutor non-overlap invariant: the
inserted booking passed the availability check against the chosen tutor's
non-canceled bookings; every failure branch leaves the store unchanged. -/
theorem book_preserves_no_overlap (subjects : List Nat) (tutors : List Tutor)
    (bookings : List Booking) (a : BookArgs) (commit : CommitOutcome)
    (h : NoOverlap bookings) :
    NoOverlap (book subjects tutors bookings a commit).2 := by
  rw [book]
  split
  · exact h
  split
  · exact h
  split
  · exact h
  split
  · exact h
  rename_i tutor hpick
  split
  · rename_i booking heq
    rw [NoOverlap, List.pairwise_append]
    refine ⟨h, List.pairwise_singleton _ _, ?_⟩
    intro x hx y hy
    rcases List.mem_singleton.mp hy with rfl
    intro htid hxc _
    have hmem := pick_fair_tutor_mem a.r bookings _ tutor hpick
    have havail := mem_available_tutors tutors bookings a.subject_id
      (a.target_date * 1440 + a.start_time)
      (a.target_date * 1440 + a.start_time + a.slot_minutes) tutor hmem
    have hgate := is_available_booking_gate tutor _ _ _ havail
    have hxf : x ∈ bookings.filter (fun b => decide (b.tutor_id = tutor.id)) :=
      List.mem_filter.mpr ⟨hx, by simp [htid]⟩
    exact hgate x hxf hxc
  · exact h
  · exact h

/-- `cancel_booking` preserves the per-tutor non-overlap invariant: it only
turns a canceled flag on, which weakens the overlap condition. -/
theorem cancel_preserves_no_overlap (bookings : List Booking)
    (tutor_id booking_id : Nat) (raw : String) (now : Nat)
    (h : NoOverlap bookings) :
    NoOverlap (cancel_booking bookings tutor_id booking_id raw now) := by
  rw [cancel_booking]
  split
  · exact h
  split
  · exact h
  split
  · exact h
  refine List.Pairwise.map _ ?_ h
  intro a b hab
  intro htid hac hbc
  by_cases ha : a.id = booking_id
  · rw [if_pos ha] at hac
    exact absurd hac (by simp)
  · by_cases hb2 : b.id = booking_id
    · rw [if_pos hb2] at hbc
      exact absurd hbc (by simp)
    · rw [if_neg ha] at htid hac ⊢
      rw [if_neg hb2] at htid hbc ⊢
      exact hab htid hac hbc

/-- A core operation on the booking store: a call of the `book` route or of
the cancel route, with all request data and the commit outcome recorded. -/
inductive Op
  | doBook (subjects : List Nat) (a : BookArgs) (commit : CommitOutcome)
  | doCancel (tutor_id booking_id : Nat) (reason : String) (now : Nat)

/-- Effect of one core operation on the booking store (the tutor table is
read-only for these operations). -/
def applyOp (tutors : List Tutor) (bookings : List Booking) : Op → List Booking
  | Op.doBook subjects a commit => (book subjects tutors bookings a commit).2
  | Op.doCancel tutor_id booking_id reason now =>
    cancel_booking bookings tutor_id booking_id reason now

/-- Run a sequence of core operations left to right. -/
def runOps (tutors : List Tutor) (bookings : List Booking) (ops : List Op) :
    List Booking :=
  ops.foldl (applyOp tutors) bookings

/-- C1: starting from a booking store satisfying the per-tutor non-overlap
invariant, any sequence of core operations (book and cancel calls, with any
request data and any commit outcomes) preserves it: no tutor ever holds two
non-canceled bookings with overlapping half-open intervals. -/
theorem booking_no_overlap_invariant (tutors : List Tutor)
    (bookings : List Booking) (ops : List Op) (h : NoOverlap bookings) :
    NoOverlap (runOps tutors bookings ops) := by
  induction ops generalizing bookings with
  | nil => exact h
  | cons op tl ih =>
    rw [runOps, List.foldl_cons]
    have hstep : NoOverlap (applyOp tutors bookings op) := by
      cases op with
      | doBook subjects a commit =>
        exact book_preserves_no_overlap subjects tutors bookings a commit h
      | doCancel tid bid reason now =>
        exact cancel_preserves_no_overlap bookings tid bid reason now h
    exact ih (applyOp tutors bookings op) hstep

/-- Witness for `booking_no_overlap_invariant`: a successful booking starting
from the empty store keeps the invariant. -/
theorem booking_no_overlap_invariant_witness :
    NoOverlap (runOps [tutorRace] []
      [Op.doBook [1] argsRace CommitOutcome.success]) :=
  booking_no_overlap_invariant [tutorRace] []
    [Op.doBook [1] argsRace CommitOutcome.success] List.Pairwise.nil

/-- `slots.setdefault(start_dt, []).append(tutor)` (`models.py` line 275) on
the insertion-ordered association-list view of the dict: extend the tutor
list of an existing key, or append a new key with a one-element list. -/
def insertSlot (d : List (Nat × List Tutor)) (k : Nat) (t : Tutor) :
    List (Nat × List Tutor) :=
  if d.any (fun p => decide (p.1 = k)) then
    d.map (fun p => if p.1 = k then (p.1, p.2 ++ [t]) else p)
  else d ++ [(k, [t])]

/-- `collect_open_slots` (`models.py` lines 258-276): for every active tutor
teaching the subject, for each weekly block on the target weekday, for each
generated slot, record the tutor under the slot start when the availability
check passes.  (`if not availabilities: continue` skips an empty loop and is
a no-op.)  `slot_minutes` is the configured granularity. -/
def collect_open_slots (tutors : List Tutor) (bookings : List Booking)
    (subject_id target_date slot_minutes : Nat) : List (Nat × List Tutor) :=
  (tutors.filter (fun t => t.subjects.contains subject_id && t.is_active)).foldl
    (fun acc t =>
      (t.availability_for_day (target_date % 7)).foldl
        (fun acc2 block =>
          (block.generate_slots target_date slot_minutes).foldl
            (fun acc3 s =>
              if t.is_available_for_slot
                  (bookings.filter (fun b => decide (b.tutor_id = t.id))) s.1 s.2
              then insertSlot acc3 s.1 t else acc3)
            acc2)
        acc)
    []

/-- Keys after `insertSlot`: the old keys plus the inserted key. -/
theorem mem_keys_insertSlot (d : List (Nat × List Tutor)) (k : Nat) (t : Tutor)
    (k2 : Nat) :
    k2 ∈ (insertSlot d k t).map (fun p => p.1) ↔
      k2 ∈ d.map (fun p => p.1) ∨ k2 = k := by
  rw [insertSlot]
  by_cases hany : d.any (fun p => decide (p.1 = k)) = true
  · rw [if_pos hany]
    have hkeys : (d.map (fun p => if p.1 = k then (p.1, p.2 ++ [t]) else p)).map
        (fun p => p.1) = d.map (fun p => p.1) := by
      rw [List.map_map]
      apply List.map_congr_left
      intro p _
      by_cases hp : p.1 = k <;> simp [hp]
    rw [hkeys]
    rcases List.any_eq_true.mp hany with ⟨p, hp, hpk⟩
    have hk : k ∈ d.map (fun p => p.1) :=
      List.mem_map.mpr ⟨p, hp, by simpa using hpk⟩
    constructor
    · exact Or.inl
    · rintro (h | rfl)
      · exact h
      · exact hk
  · rw [if_neg hany]
    rw [List.map_append]
    simp

/-- `insertSlot` preserves that every value list is non-empty. -/
theorem insertSlot_vals_ne (d : List (Nat × List Tutor)) (k : Nat) (t : Tutor)
    (h : ∀ p ∈ d, p.2 ≠ []) : ∀ p ∈ insertSlot d k t, p.2 ≠ [] := by
  intro p hp
  rw [insertSlot] at hp
  by_cases hany : d.any (fun p => decide (p.1 = k)) = true
  · rw [if_pos hany] at hp
    rcases List.mem_map.mp hp with ⟨q, hq, rfl⟩
    by_cases hqk : q.1 = k <;> simp [hqk]
    exact h q hq
  · rw [if_neg hany] at hp
    rcases List.mem_append.mp hp with hd | hs
    · exact h p hd
    · rcases List.mem_singleton.mp hs with rfl
      simp

/-- A fold step that preserves a predicate preserves it along the fold. -/
theorem foldl_preserve {α β : Type} (P : β → Prop) (step : β → α → β)
    (hstep : ∀ b a, P b → P (step b a)) :
    ∀ (l : List α) (b : β), P b → P (l.foldl step b) := by
  intro l
  induction l with
  | nil => intro b hb; exact hb
  | cons x xs ih =>
    intro b hb
    rw [List.foldl_cons]
    exact ih (step b x) (hstep b x hb)

/-- Key membership along a fold whose step adds exactly the keys described by
`emit`. -/
theorem mem_keys_foldl {α : Type} (step : List (Nat × List Tutor) → α → List (Nat × List Tutor))
    (emit : α → Nat → Prop)
    (hstep : ∀ acc x k2, k2 ∈ (step acc x).map (fun p => p.1) ↔
      k2 ∈ acc.map (fun p => p.1) ∨ emit x k2) :
    ∀ (l : List α) (acc : List (Nat × List Tutor)) (k2 : Nat),
      k2 ∈ (l.foldl step acc).map (fun p => p.1) ↔
        k2 ∈ acc.map (fun p => p.1) ∨ ∃ x ∈ l, emit x k2 := by
  intro l
  induction l with
  | nil => intro acc k2; simp
  | cons x xs ih =>
    intro acc k2
    rw [List.foldl_cons, ih (step acc x) k2, hstep acc x k2]
    constructor
    · rintro ((h | he) | ⟨y, hy, hey⟩)
      · exact Or.inl h
      · exact Or.inr ⟨x, List.mem_cons_self x xs, he⟩
      · exact Or.inr ⟨y, List.mem_cons_of_mem x hy, hey⟩
    · rintro (h | ⟨y, hy, hey⟩)
      · exact Or.inl (Or.inl h)
      · rcases List.mem_cons.mp hy with rfl | hyxs
        · exact Or.inl (Or.inr hey)
        · exact Or.inr ⟨y, hyxs, hey⟩

/-- C8: a slot start is a key of `collect_open_slots` exactly when some
active tutor teaching the subject has a weekly block on the date's weekday
generating a slot with that start for which the tutor's availability check
passes; and no key is ever mapped to an empty tutor list. -/
theorem collect_open_slots_spec (tutors : List Tutor) (bookings : List Booking)
    (subject_id target_date slot_minutes : Nat) (k : Nat) :
    (k ∈ (collect_open_slots tutors bookings subject_id target_date
        slot_minutes).map (fun p => p.1) ↔
      ∃ t ∈ tutors, t.subjects.contains subject_id = true ∧ t.is_active = true
        ∧ ∃ blk ∈ t.availability_for_day (target_date % 7),
          ∃ s ∈ blk.generate_slots target_date slot_minutes,
            t.is_available_for_slot
              (bookings.filter (fun b => decide (b.tutor_id = t.id))) s.1 s.2 = true
            ∧ k = s.1)
    ∧ (∀ p ∈ collect_open_slots tutors bookings subject_id target_date
        slot_minutes, p.2 ≠ []) := by
  have hstep3 : ∀ (t : Tutor) (acc : List (Nat × List Tutor)) (s : Nat × Nat)
      (k2 : Nat),
      k2 ∈ ((if t.is_available_for_slot
            (bookings.filter (fun b => decide (b.tutor_id = t.id))) s.1 s.2
          then insertSlot acc s.1 t else acc)).map (fun p => p.1) ↔
        k2 ∈ acc.map (fun p => p.1)
          ∨ (t.is_available_for_slot
              (bookings.filter (fun b => decide (b.tutor_id = t.id))) s.1 s.2 = true
            ∧ k2 = s.1) := by
    intro t acc s k2
    by_cases hav : t.is_available_for_slot
        (bookings.filter (fun b => decide (b.tutor_id = t.id))) s.1 s.2 = true
    · rw [if_pos hav, mem_keys_insertSlot]
      simp [hav]
    · rw [if_neg hav]
      simp [hav]
  have h2 : ∀ (t : Tutor) (acc : List (Nat × List Tutor)) (k2 : Nat),
      k2 ∈ ((t.availability_for_day (target_date % 7)).foldl
          (fun acc2 block =>
            (block.generate_slots target_date slot_minutes).foldl
              (fun acc3 s =>
                if t.is_available_for_slot
                    (bookings.filter (fun b => decide (b.tutor_id = t.id))) s.1 s.2
                then insertSlot acc3 s.1 t else acc3)
              acc2)
          acc).map (fun p => p.1) ↔
        k2 ∈ acc.map (fun p => p.1)
          ∨ ∃ blk ∈ t.availability_for_day (target_date % 7),
              ∃ s ∈ blk.generate_slots target_date slot_minutes,
                t.is_available_for_slot
                  (bookings.filter (fun b => decide (b.tutor_id = t.id))) s.1 s.2 = true
                ∧ k2 = s.1 := by
    intro t acc k2
    exact mem_keys_foldl _
      (fun blk k3 => ∃ s ∈ blk.generate_slots target_date slot_minutes,
        t.is_available_for_slot
          (bookings.filter (fun b => decide (b.tutor_id = t.id))) s.1 s.2 = true
        ∧ k3 = s.1)
      (fun acc2 blk k3 => mem_keys_foldl _ _ (hstep3 t)
        (blk.generate_slots target_date slot_minutes) acc2 k3)
      (t.availability_for_day (target_date % 7)) acc k2
  have h1 := mem_keys_foldl _
    (fun t k2 => ∃ blk ∈ t.availability_for_day (target_date % 7),
      ∃ s ∈ blk.generate_slots target_date slot_minutes,
        t.is_available_for_slot
          (bookings.filter (fun b => decide (b.tutor_id = t.id))) s.1 s.2 = true
        ∧ k2 = s.1)
    (fun acc t k2 => h2 t acc k2)
    (tutors.filter (fun t => t.subjects.contains subject_id && t.is_active)) [] k
  constructor
  · refine Iff.trans h1 ?_
    simp only [List.map_nil, List.not_mem_nil, false_or, List.mem_filter,
      Bool.and_eq_true]
    constructor
    · rintro ⟨t, ⟨htm, hsub, hact⟩, rest⟩
      exact ⟨t, htm, hsub, hact, rest⟩
    · rintro ⟨t, htm, hsub, hact, rest⟩
      exact ⟨t, ⟨htm, hsub, hact⟩, rest⟩
  · refine foldl_preserve
      (fun d : List (Nat × List Tutor) => ∀ p ∈ d, p.2 ≠ []) _ ?_ _ [] (by simp)
    intro acc t hacc
    refine foldl_preserve
      (fun d : List (Nat × List Tutor) => ∀ p ∈ d, p.2 ≠ []) _ ?_ _ acc hacc
    intro acc2 blk hacc2
    refine foldl_preserve
      (fun d : List (Nat × List Tutor) => ∀ p ∈ d, p.2 ≠ []) _ ?_ _ acc2 hacc2
    intro acc3 s hacc3
    by_cases hav : t.is_available_for_slot
        (bookings.filter (fun b => decide (b.tutor_id = t.id))) s.1 s.2 = true
    · rw [if_pos hav]
      exact insertSlot_vals_ne acc3 s.1 t hacc3
    · rw [if_neg hav]
      exact hacc3
